import Mathlib

/-!
# Verification of the APKMirror listing-resolution engine

Shallow embedding of the core scraper of this repository:
`src/scrapers/apkmirror_scraper.py` (class `APKMirrorScraper`) together with
the result record of `src/scrapers/base_scraper.py` (dataclass `APKResult`).

Modelling conventions:
* Python strings are Lean `String`s; character classes (`\d`, `[A-Za-z0-9]`,
  `str.split()` whitespace, `str.lower()`) are modelled over the ASCII range,
  which is the alphabet the scraper's regexes and the site's markup use.
* HTTP traffic is an explicit `World`: every page the scraper can fetch is a
  function from the requested URL to `Except Unit page`, where `Except.error`
  models a raised transport/HTTP exception (`raise_for_status` or a network
  error).  Parsed pages carry exactly the fields the source extracts.
* A Python exception that no `try/except` in the modelled code catches is an
  explicit `PyExc` outcome.
-/

namespace MindTheApp

/-! ## ASCII character model of the Python string primitives -/

/-- Whitespace for Python `str.split()` / `str.strip()` (ASCII part):
tab, newline, vertical tab, form feed, carriage return, space. -/
def pyIsSpace (c : Char) : Bool :=
  decide (c.toNat = 9 ∨ c.toNat = 10 ∨ c.toNat = 11 ∨ c.toNat = 12 ∨
          c.toNat = 13 ∨ c.toNat = 32)

/-- The regex class `\d` (ASCII): `'0'`–`'9'`. -/
def pyIsDigit (c : Char) : Bool := decide (48 ≤ c.toNat ∧ c.toNat ≤ 57)

/-- The regex class `[A-Za-z0-9]`. -/
def pyIsAlnum (c : Char) : Bool :=
  decide ((65 ≤ c.toNat ∧ c.toNat ≤ 90) ∨ (97 ≤ c.toNat ∧ c.toNat ≤ 122) ∨
          (48 ≤ c.toNat ∧ c.toNat ≤ 57))

/-- The regex class `[A-Za-z0-9.\-]` (codepoint 46 is `.`, 45 is `-`). -/
def pyIsNameChar (c : Char) : Bool :=
  pyIsAlnum c || decide (c.toNat = 46) || decide (c.toNat = 45)

/-- Python `str.lower()` on one character (ASCII case mapping `A`–`Z` → `a`–`z`). -/
def pyLowerChar (c : Char) : Char :=
  if 65 ≤ c.toNat && c.toNat ≤ 90 then Char.ofNat (c.toNat + 32) else c

/-- Python `str.lower()` (ASCII model). -/
def pyLower (s : String) : String := String.mk (s.data.map pyLowerChar)

/-- Cut a character list at every whitespace character, keeping the (possibly
empty) fragments between cuts; the result is never `[]`. -/
def splitWs : List Char → List (List Char)
  | [] => [[]]
  | c :: cs =>
    if pyIsSpace c then [] :: splitWs cs
    else (c :: (splitWs cs).headI) :: (splitWs cs).tail

/-- Python `str.split()` with no separator, on a character list: split on runs of
whitespace, never producing empty tokens. -/
def pySplitChars (cs : List Char) : List (List Char) :=
  (splitWs cs).filter (· ≠ [])

/-- Python `title.split()`. -/
def pySplit (s : String) : List String := (pySplitChars s.data).map String.mk

/-- Python `title.strip()` (whitespace removed from both ends). -/
def pyStrip (s : String) : String :=
  String.mk (((s.data.dropWhile pyIsSpace).reverse.dropWhile pyIsSpace).reverse)

/-- Python `" ".join(parts)`. -/
def joinSpaces : List String → String
  | [] => ""
  | [t] => t
  | t :: ts => t ++ " " ++ joinSpaces ts

/-! ## The two regular expressions of the scraper -/

/-- States of the deterministic automaton for `\d+(?:\.\d+)+`. -/
inductive VState where
  /-- inside the leading `\d+`, at least one digit consumed, no dot yet. -/
  | firstGroup
  /-- a `.` was just consumed; the next character must be a digit. -/
  | afterDot
  /-- inside a `\.\d+` group, at least one digit consumed (accepting). -/
  | laterGroup
deriving Repr, DecidableEq

/-- Run of the automaton for `\d+(?:\.\d+)+`: the regex is deterministic
(the greedy `\d+` can never profitably give a digit back to `\.`), so this
DFA run is exactly its full-match semantics. -/
def vmRun : VState → List Char → Bool
  | .laterGroup, [] => true
  | .firstGroup, [] => false
  | .afterDot, [] => false
  | .firstGroup, c :: cs =>
    if pyIsDigit c then vmRun .firstGroup cs else c = '.' && vmRun .afterDot cs
  | .afterDot, c :: cs => pyIsDigit c && vmRun .laterGroup cs
  | .laterGroup, c :: cs =>
    if pyIsDigit c then vmRun .laterGroup cs else c = '.' && vmRun .afterDot cs

/-- The regex `re.fullmatch(r"\d+(?:\.\d+)+", s)` from `_parse_app_row`
(line 148): one or more digits followed by at least one `.digits` group. -/
def versionTokenMatch (s : String) : Bool :=
  match s.data with
  | [] => false
  | c :: cs => pyIsDigit c && vmRun .firstGroup cs

/-- Matcher for the tail `[A-Za-z0-9.\-]*\d[A-Za-z0-9.\-]*` of the base-name
regex: scan to the first digit, requiring every character before it to be in
the class, and every character after it as well (`\d` is inside the class, so
full-match is equivalent to "all characters in the class and some digit"). -/
def baseNameTail : List Char → Bool
  | [] => false
  | c :: cs => if pyIsDigit c then cs.all pyIsNameChar else pyIsNameChar c && baseNameTail cs

/-- The regex `re.fullmatch(r"[A-Za-z0-9][A-Za-z0-9.\-]*\d[A-Za-z0-9.\-]*", s)` from
`_extract_base_name` (line 92): first character alphanumeric, and the rest of
the token is drawn from `[A-Za-z0-9.\-]` with at least one digit among it. -/
def baseNameTokenMatch (s : String) : Bool :=
  match s.data with
  | [] => false
  | c :: cs => pyIsAlnum c && baseNameTail cs

/-! ## Data model (`src/scrapers/base_scraper.py`) -/

/-- The dataclass `APKResult`.

The Python dataclass declares `title, url, source, description, version,
developer, direct_download_url` — and **no** `fallback_download_url` field.
The scraper nevertheless assigns `fallback_download_url` dynamically
(apkmirror_scraper.py line 352) and reads it (line 333, and main.py line 134).
Here `fallback_download_url = none` models *the attribute being absent*:
reading it in that state raises `AttributeError` in Python, which the step
function below makes explicit.  When the attribute has been assigned it always
holds a non-empty URL string (`some u`). -/
structure APKResult where
  title : String
  url : String
  source : String
  description : Option String := none
  version : Option String := none
  developer : Option String := none
  direct_download_url : Option String := none
  fallback_download_url : Option String := none
deriving Repr, DecidableEq

/-- Exceptions that escape `search_and_download` (nothing catches them there). -/
inductive PyExc where
  /-- Raised by `parts[-1]` on an empty list, `_extract_base_name` line 92. -/
  | indexError
  /-- reading the never-assigned `fallback_download_url` attribute, line 333. -/
  | attributeError
deriving Repr, DecidableEq

/-- The dict `captured_results`: a mapping from canonical key to `APKResult`. -/
abbrev Registry := List (String × APKResult)

/-- Python `captured_results.get(key)`. -/
def dictGet (d : Registry) (k : String) : Option APKResult :=
  match d with
  | [] => none
  | (k', v) :: rest => if k' = k then some v else dictGet rest k

/-- Python `captured_results[key] = v` (update in place, else append). -/
def dictSet (d : Registry) (k : String) (v : APKResult) : Registry :=
  match d with
  | [] => [(k, v)]
  | (k', v') :: rest => if k' = k then (k, v) :: rest else (k', v') :: dictSet rest k v

/-! ## Pages and the HTTP world -/

/-- Model of `urllib.parse.urljoin(base, rel)` restricted to the shapes the scraper
produces: an absolute `http(s)` reference is returned unchanged, any other
reference is treated as a root-relative path appended to the site origin. -/
def urljoin (base rel : String) : String :=
  if "http://".data.isPrefixOf rel.data || "https://".data.isPrefixOf rel.data then rel
  else base ++ rel

/-- The scraper's `self.base_url`. -/
def baseUrl : String := "https://www.apkmirror.com"

/-- One `div.appRow` block of the listing page, as the fields `_parse_app_row`
reads it: the text of the `h5.appRowTitle` element (if present), the `href` of
the anchor inside it (if present; `get("href", "")` defaults to `""`), and the
text of the `a.byDeveloper` element (if present). -/
structure RowData where
  titleText : Option String
  linkHref : Option String
  developerText : Option String
deriving Repr, DecidableEq

/-- The detail page as `get_download_link` step 3 parses it: the `href` of a
qualifying `a.downloadButton` (one whose href starts with `/apk/` and does not
contain `#downloads`), if any. -/
structure DetailPage where
  downloadButton : Option String
deriving Repr, DecidableEq

/-- The detail page as `get_variant_link` parses it: the `href` of the first
anchor that is the parent of an `svg.icon.tag-icon` and carries the
`accent_color` class, if any. -/
structure VariantScanPage where
  variantLink : Option String
deriving Repr, DecidableEq

/-- The variant page: the `href` of the first `a.downloadButton`, if any. -/
structure VariantPage where
  downloadButton : Option String
deriving Repr, DecidableEq

/-- The final download page: the `href` of the `rel=nofollow`,
`data-google-interstitial=false` anchor whose href contains
`/wp-content/themes/APKMirror/download.php`, if any. -/
structure DownloadPage where
  finalLink : Option String
deriving Repr, DecidableEq

/-- The network environment of one query.  Each field maps the requested URL
to the parsed page, or to `Except.error ()` when the fetch raises (non-2xx
status via `raise_for_status`, or a transport error).  `rows` is the listing
page fetched once (while `apk_counter == 0`) and cached in
`self.cached_search`; each later iteration re-parses the same rows. -/
structure World where
  rows : Except Unit (List RowData)
  detailFetch : String → Except Unit DetailPage
  variantScanFetch : String → Except Unit VariantScanPage
  variantFetch : String → Except Unit VariantPage
  finalFetch : String → Except Unit DownloadPage

/-! ## Parsing (`_parse_app_row`, `_parse_search_results`, `search`) -/

/-- Lines 146–150 of `_parse_app_row`: the version is the title's last
whitespace token iff that token fully matches `\d+(?:\.\d+)+`.  A title with
no token at all makes `split()[-1]` raise `IndexError`, which the enclosing
`try` of `_parse_app_row` turns into a rejected row (`none` here). -/
def extract_version (title : String) : Option String :=
  match (pySplit (pyStrip title)).getLast? with
  | none => none
  | some last => if versionTokenMatch last then some last else none

/-- Method `_parse_app_row` (lines 123–166).  A row yields a result only if it has a
title element and an anchor inside it; any exception inside (the `IndexError`
of the version expression on a token-less title) is caught and yields `none`. -/
def parse_app_row (row : RowData) : Option APKResult :=
  match row.titleText with
  | none => none
  | some rawTitle =>
    let title := pyStrip rawTitle
    match row.linkHref with
    | none => none
    | some href =>
      let app_url := urljoin baseUrl href
      match (pySplit (pyStrip title)).getLast? with
      | none => none
      | some last =>
        let version := if versionTokenMatch last then some last else none
        let developer := row.developerText.map pyStrip
        some { title := title, url := app_url, source := "apkmirror",
               developer := developer, version := version }

/-- Method `self.search(query)` at cursor `counter` (lines 49–80 together with
`_parse_search_results`, lines 96–121): fetch (or reuse) the listing page —
a fetch error is caught and returns `None` — then parse the single row at
index `apk_counter`, returning `None` past the end or on a row that does not
parse. -/
def searchStep (w : World) (counter : Nat) : Option APKResult :=
  match w.rows with
  | .error _ => none
  | .ok rows =>
    match rows.get? counter with
    | none => none
    | some row => parse_app_row row

/-! ## Name normalisation (`_extract_base_name`) -/

/-- Method `_extract_base_name` (lines 82–94): drop the final whitespace token iff it
fully matches `[A-Za-z0-9][A-Za-z0-9.\-]*\d[A-Za-z0-9.\-]*`, and re-join with
single spaces.  `parts[-1]` on a title with no token raises `IndexError`,
modelled as `none`. -/
def extract_base_name (title : String) : Option String :=
  let parts := pySplit (pyStrip title)
  match parts.getLast? with
  | none => none
  | some last =>
    let parts := if baseNameTokenMatch last then parts.dropLast else parts
    some (joinSpaces parts)

/-- The key `self._extract_base_name(result.title).lower()` — the canonical key as the
orchestrator computes it (line 330). -/
def normalizeKey (title : String) : Option String :=
  (extract_base_name title).map pyLower

/-! ## The resolution chain (`get_variant_link`, `get_download_link`) -/

/-- Method `get_variant_link` (lines 168–202): re-fetch the detail page (exceptions
propagate to the caller), return the first qualifying variant anchor or `None`. -/
def get_variant_link (w : World) (apkUrl : String) : Except Unit (Option String) := do
  let page ← w.variantScanFetch apkUrl
  pure (page.variantLink.map (urljoin baseUrl))

/-- Steps 4 of `get_download_link` (lines 263–293): fetch the download page
behind the button and extract the terminal link, absent links giving `None`. -/
def finishChain (w : World) (downloadPageUrl : String) : Except Unit (Option String) := do
  let page ← w.finalFetch downloadPageUrl
  pure (page.finalLink.map (urljoin baseUrl))

/-- The body of `get_download_link`'s `try:` block (lines 217–293).  An
`Except.error ()` is an exception raised by one of the fetches (or by
`scraper.get(None)` when no variant link exists) that the enclosing
`except` will catch. -/
def tryChain (w : World) (result : APKResult) : Except Unit (Option String) := do
  let page ← w.detailFetch result.url
  match page.downloadButton with
  | some href => finishChain w (urljoin baseUrl href)
  | none => do
    let vlink ← get_variant_link w result.url
    match vlink with
    | none => Except.error ()   -- `scraper.get(None)` raises
    | some vurl => do
      let vpage ← w.variantFetch vurl
      match vpage.downloadButton with
      | none => pure none
      | some href => finishChain w (urljoin baseUrl href)

/-- Method `get_download_link` (lines 204–297): `None` for a non-apkmirror result;
otherwise the `try:` body with every exception caught and turned into `None`. -/
def get_download_link (w : World) (result : APKResult) : Option String :=
  if result.source ≠ "apkmirror" then none
  else
    match tryChain w result with
    | .error _ => none
    | .ok v => v

/-! ## The per-query loop (`search_and_download`) -/

/-- Outcome of one iteration of the `while True:` body after the budget guard. -/
inductive StepOut where
  /-- a `return` out of the loop (counter reset to 0). -/
  | stop (result : Option APKResult) (captured : Registry)
  /-- Models `self.apk_counter += 1; continue`. -/
  | next (captured : Registry)
  /-- an uncaught Python exception aborts the loop (and the run). -/
  | crash (e : PyExc)
deriving Repr, DecidableEq

/-- Line 333's condition `existing_result and existing_result.fallback_download_url`:
a missing entry is falsy; on a present entry Python reads the
`fallback_download_url` attribute, which raises `AttributeError` when it was
never assigned, and otherwise tests the string for truthiness. -/
def dupCheck : Option APKResult → Except PyExc Bool
  | none => .ok false
  | some e =>
    match e.fallback_download_url with
    | none => .error .attributeError
    | some fb => .ok (fb ≠ "")

/-- Lines 330–353: the loop body applied to the result `self.search(query)`
returned (`result is None` was already handled). -/
def processResult (w : World) (captured : Registry) (result : APKResult) : StepOut :=
  match extract_base_name result.title with
  | none => .crash .indexError
  | some base0 =>
    let key := pyLower base0
    let existing := dictGet captured key
    match dupCheck existing with
    | .error e => .crash e
    | .ok true => .next captured
    | .ok false =>
      match get_download_link w result with
      | none => .next captured
      | some dl =>
        match existing with
        | none => .next (dictSet captured key { result with direct_download_url := some dl })
        | some e =>
          let e2 := { e with fallback_download_url := some dl }
          .stop (some e2) (dictSet captured key e2)

/-- One iteration of the `while True:` body after the `apk_counter`
budget guard (lines 322–353). -/
def loopBody (w : World) (captured : Registry) (counter : Nat) : StepOut :=
  match searchStep w counter with
  | none => .stop none captured
  | some result => processResult w captured result

/-- Result of `search_and_download`: either the returned pair (first and second
components of the Python `return`), or an uncaught exception. -/
inductive RunResult where
  | ret (result : Option APKResult) (captured : Registry)
  | crash (e : PyExc)
deriving Repr, DecidableEq

/-- The `while True:` loop of `search_and_download`, with the remaining budget
`max_results - apk_counter` as structural fuel: `fuel = 0` is exactly the
guard `self.apk_counter >= self.max_results` of line 317 firing. -/
def loopGo (w : World) : Registry → Nat → Nat → RunResult
  | captured, _, 0 => .ret none captured
  | captured, counter, fuel + 1 =>
    match loopBody w captured counter with
    | .stop r cap => .ret r cap
    | .crash e => .crash e
    | .next cap => loopGo w cap (counter + 1) fuel

/-- The `while True:` loop of `search_and_download` (lines 316–356) from
attempt counter `counter`, with the counter made explicit.  Every `return`
also resets `self.apk_counter` to 0 (not part of the returned value). -/
def loop (w : World) (maxResults : Nat) (captured : Registry) (counter : Nat) : RunResult :=
  loopGo w captured counter (maxResults - counter)

/-- Method `search_and_download(query, captured_results)`: the loop starts with the
freshly reset cursor `apk_counter = 0`. -/
def search_and_download (w : World) (maxResults : Nat) (captured : Registry) : RunResult :=
  loop w maxResults captured 0

/-- Fuel-structured companion of `loopGo` recording the candidate positions
the loop reads from the listing, in order. -/
def traceGo (w : World) : Registry → Nat → Nat → List Nat
  | _, _, 0 => []
  | captured, counter, fuel + 1 =>
    (match w.rows with
     | .error _ => []
     | .ok rows => if counter < rows.length then [counter] else []) ++
    (match loopBody w captured counter with
     | .next cap => traceGo w cap (counter + 1) fuel
     | _ => [])

/-- The candidate positions the loop reads from the listing, in order: position
`counter` is visited when the budget allows it and the cached listing holds a
row at that index. -/
def loopTrace (w : World) (maxResults : Nat) (captured : Registry) (counter : Nat) : List Nat :=
  traceGo w captured counter (maxResults - counter)

/-- The number of candidates on the (successfully fetched) listing page. -/
def rowCount (w : World) : Nat :=
  match w.rows with
  | .error _ => 0
  | .ok rows => rows.length

/-! ## Spec-side definitions

These follow the wording of the specification (spec.md §4.1, §8), independently
of the implementation, for comparison with the source-derived functions. -/

/-- The groups `gs` joined with single dots: `g1.g2.….gn`. -/
def joinDots : List (List Char) → List Char
  | [] => []
  | [g] => g
  | g :: gs => g ++ '.' :: joinDots gs

/-- The tail of a dot-joined group list: `dotTail [g1, …, gn]` is
`.g1.g2.….gn`, so that `joinDots (g :: gs) = g ++ dotTail gs`. -/
def dotTail (gss : List (List Char)) : List Char :=
  gss.foldr (fun g acc => '.' :: (g ++ acc)) []

/-- Spec wording "`minGroups` or more digit groups separated by single dots":
the token is a dot-joined list of at least `minGroups` non-empty digit runs.
The spec's version pattern reads "one or more digit groups"
(`specDottedVersion 1`); the amended pattern requires two
(`specDottedVersion 2`). -/
def specDottedVersion (minGroups : Nat) (s : String) : Prop :=
  ∃ gss : List (List Char),
    minGroups ≤ gss.length ∧
    (∀ g ∈ gss, g ≠ [] ∧ g.all pyIsDigit = true) ∧
    s.data = joinDots gss

/-- The claim's strip condition for canonical keys: "the token contains at
least one digit". -/
def specStripCond (s : String) : Bool := s.data.any pyIsDigit

/-- The amended strip condition, the closed form of the source regex: every
character of the token is in `[A-Za-z0-9.\-]`, the first is alphanumeric, and
a digit occurs somewhere after the first character. -/
def amendedStripCond (s : String) : Bool :=
  match s.data with
  | [] => false
  | c :: cs => pyIsAlnum c && cs.all pyIsNameChar && cs.any pyIsDigit

/-- Canonical-key extraction as the spec words it, parameterised by the strip
condition: tokenize on whitespace, strip the final token iff `cond` accepts
it, re-join the remaining tokens with single spaces, lower-cased. -/
def specCanonicalKey (cond : String → Bool) (title : String) : String :=
  let parts := pySplit title
  let parts :=
    match parts.getLast? with
    | none => parts
    | some last => if cond last then parts.dropLast else parts
  joinSpaces (parts.map pyLower)

/-- The trailing-version strip of `_extract_base_name`, on a token list. -/
def stripVersionParts (parts : List String) : List String :=
  match parts.getLast? with
  | none => parts
  | some last => if baseNameTokenMatch last then parts.dropLast else parts

/-! ## Concrete scenario worlds -/

/-- Listing row "Tracker 1.2" (spec.md §8 end-to-end scenario). -/
def rowT1 : RowData :=
  { titleText := some "Tracker 1.2", linkHref := some "/apk/t1", developerText := none }

/-- Listing row "Tracker 2.0" (same canonical key "tracker"). -/
def rowT2 : RowData :=
  { titleText := some "Tracker 2.0", linkHref := some "/apk/t2", developerText := none }

/-- Download URL A, as the chain resolves it for "Tracker 1.2". -/
def urlA : String :=
  "https://www.apkmirror.com/wp-content/themes/APKMirror/download.php?id=1"

/-- The world of the two-candidate end-to-end scenario: both candidates'
detail pages carry a direct download button whose download page carries a
terminal link (URL A for the first candidate, URL B for the second). -/
def wTracker : World :=
  { rows := .ok [rowT1, rowT2]
  , detailFetch := fun u =>
      if u = "https://www.apkmirror.com/apk/t1" then .ok { downloadButton := some "/apk/t1/dl" }
      else if u = "https://www.apkmirror.com/apk/t2" then .ok { downloadButton := some "/apk/t2/dl" }
      else .error ()
  , variantScanFetch := fun _ => .error ()
  , variantFetch := fun _ => .error ()
  , finalFetch := fun u =>
      if u = "https://www.apkmirror.com/apk/t1/dl" then
        .ok { finalLink := some "/wp-content/themes/APKMirror/download.php?id=1" }
      else if u = "https://www.apkmirror.com/apk/t2/dl" then
        .ok { finalLink := some "/wp-content/themes/APKMirror/download.php?id=2" }
      else .error () }

/-- The entry the first candidate of `wTracker` inserts: primary download URL
set, `fallback_download_url` attribute never assigned. -/
def trackerEntry1 : APKResult :=
  { title := "Tracker 1.2", url := "https://www.apkmirror.com/apk/t1",
    source := "apkmirror", version := some "1.2",
    direct_download_url := some urlA }

/-- A fallback-complete registry entry for key "tracker" (a state the spec's
DedupRegistry reaches after a successful merge). -/
def trackerComplete : APKResult :=
  { title := "Tracker 1.2", url := "https://www.apkmirror.com/apk/t1",
    source := "apkmirror", version := some "1.2",
    direct_download_url := some urlA,
    fallback_download_url := some "https://www.apkmirror.com/wp-content/themes/APKMirror/download.php?id=2" }

/-- A world whose every fetch raises (also the world of a query whose listing
fetch fails). -/
def wAllFail : World :=
  { rows := .error (), detailFetch := fun _ => .error ()
  , variantScanFetch := fun _ => .error (), variantFetch := fun _ => .error ()
  , finalFetch := fun _ => .error () }

/-- A world with one listing candidate whose detail fetch raises (non-2xx or
transport error on the first chain request). -/
def wDetailDown : World :=
  { rows := .ok [rowT1], detailFetch := fun _ => .error ()
  , variantScanFetch := fun _ => .error (), variantFetch := fun _ => .error ()
  , finalFetch := fun _ => .error () }

/-- The `wTracker` listing with every chain fetch raising: same candidates,
no reachable network. -/
def wTrackerNoNet : World :=
  { rows := .ok [rowT1, rowT2], detailFetch := fun _ => .error ()
  , variantScanFetch := fun _ => .error (), variantFetch := fun _ => .error ()
  , finalFetch := fun _ => .error () }

/-- A hypothetical search result whose title has no whitespace token. -/
def blankTitleResult : APKResult :=
  { title := "   ", url := "https://www.apkmirror.com/apk/x", source := "apkmirror" }

/-! ## C1, C2: the merge path raises `AttributeError` -/

/-- C1: the DedupRegistry merge behaviour at its failing input.  The first
merge for key "tracker" inserts an entry whose primary download URL is set and
whose `fallback_download_url` attribute is never assigned; the second call for
the same key then evaluates `existing_result.fallback_download_url` (line 333)
on that entry and raises `AttributeError` — the dataclass `APKResult` declares
no such field — instead of setting the fallback URL and reporting the
terminal success.  The fallback-setting merge and the "duplicate" report of a
third call are therefore unreachable from a fresh registry. -/
theorem c1_merge_crashes :
    loopBody wTracker [] 0 = .next [("tracker", trackerEntry1)] ∧
    trackerEntry1.direct_download_url = some urlA ∧
    trackerEntry1.fallback_download_url = none ∧
    dupCheck (some trackerEntry1) = .error .attributeError ∧
    loopBody wTracker [("tracker", trackerEntry1)] 1 = .crash .attributeError := by
  refine ⟨by decide, rfl, rfl, rfl, by decide⟩

/-- C2: the end-to-end two-candidate scenario.  The listing holds
"Tracker 1.2" and "Tracker 2.0" (same canonical key "tracker"), the first
resolving to URL A and the second to URL B; instead of returning one entry
with primary A and fallback B, `search_and_download` aborts with
`AttributeError` when the second candidate's key is looked up against the
entry inserted for the first. -/
theorem c2_scenario_crashes :
    search_and_download wTracker 10 [] = .crash .attributeError := by
  decide

/-! ## C3: budget exhaustion returns Absent unconditionally -/

/-- C3 counterexample: with an attempt budget of 1, the first candidate's
entry (primary URL set) is inserted into the registry and the budget is then
exhausted; the loop returns Absent (`none`) even though an (incomplete) entry
for the query exists in the registry — lines 317–320 return
`None, captured_results` unconditionally. -/
theorem c3_counterexample :
    search_and_download wTracker 1 [] = .ret none [("tracker", trackerEntry1)] ∧
    dictGet [("tracker", trackerEntry1)] "tracker" = some trackerEntry1 := by
  refine ⟨by decide, by decide⟩

/-- C3 amended: when the attempt counter has reached `max_results`, the loop
stops and returns Absent (`none`) with the registry unchanged, regardless of
any entry the registry holds for the query; the partial entry survives only
in the returned `captured_results`. -/
theorem c3_amended_exhaustion_returns_none
    (w : World) (maxResults : Nat) (captured : Registry) (counter : Nat)
    (h : maxResults ≤ counter) :
    loop w maxResults captured counter = .ret none captured := by
  unfold loop
  rw [Nat.sub_eq_zero_of_le h]
  rfl

/-- Witness for `c3_amended_exhaustion_returns_none` at a concrete input. -/
theorem c3_amended_witness :
    (1 : Nat) ≤ 1 ∧
      loop wTracker 1 [("tracker", trackerEntry1)] 1 =
        .ret none [("tracker", trackerEntry1)] :=
  ⟨by decide, c3_amended_exhaustion_returns_none wTracker 1 [("tracker", trackerEntry1)] 1 (by decide)⟩

/-! ## C4: a bare digit run is not a version -/

/-- C4 counterexample: the token "12" satisfies the spec's pattern "one or
more digit groups separated by single dots" (one group, no dots), and it is
the final whitespace token of the title "App 12", yet the extracted version is
absent — the source regex `\d+(?:\.\d+)+` requires at least one `.digits`
group. -/
theorem c4_counterexample :
    (pySplit "App 12").getLast? = some "12" ∧
    specDottedVersion 1 "12" ∧
    extract_version "App 12" = none := by
  refine ⟨by decide, ⟨[['1', '2']], by decide, by decide, rfl⟩, by decide⟩

/-! ## C5: the strip condition is stricter than "contains a digit" -/

/-- C5 counterexample: the trailing token "2" contains a digit, so the claim's
normalization yields "foo" for the title "Foo 2"; the source regex
`[A-Za-z0-9][A-Za-z0-9.\-]*\d[A-Za-z0-9.\-]*` needs a digit after the first
character, so the code does not strip "2" and the canonical key is "foo 2". -/
theorem c5_counterexample :
    specStripCond "2" = true ∧
    specCanonicalKey specStripCond "Foo 2" = "foo" ∧
    normalizeKey "Foo 2" = some "foo 2" := by
  refine ⟨by decide, by decide, by decide⟩

/-! ## C6: normalization is not idempotent -/

/-- C6 counterexample: `normalize("App 1.0 2.0") = "app 1.0"`, and a second
application strips again: `normalize("app 1.0") = "app"`. -/
theorem c6_counterexample :
    normalizeKey "App 1.0 2.0" = some "app 1.0" ∧
    (normalizeKey "App 1.0 2.0").bind normalizeKey = some "app" ∧
    (normalizeKey "App 1.0 2.0").bind normalizeKey ≠ normalizeKey "App 1.0 2.0" := by
  refine ⟨by decide, by decide, by decide⟩

/-! ## Loop-step helpers -/

/-- Helper: `search` reads only the cached listing, so two worlds with the same
listing produce the same candidates. -/
theorem searchStep_congr (w w' : World) (counter : Nat) (h : w'.rows = w.rows) :
    searchStep w' counter = searchStep w counter := by
  unfold searchStep
  rw [h]

/-- An iteration that ends in `continue` advances the attempt counter by one
and keeps looping (the budget guard not yet reached). -/
theorem loop_step_next (w : World) (maxResults : Nat) (captured : Registry)
    (counter : Nat) (cap' : Registry)
    (hcnt : counter < maxResults)
    (hbody : loopBody w captured counter = .next cap') :
    loop w maxResults captured counter = loop w maxResults cap' (counter + 1) := by
  unfold loop
  have hfuel : maxResults - counter = (maxResults - (counter + 1)) + 1 := by omega
  rw [hfuel, loopGo, hbody]

/-! ## C8: the duplicate-skip fast path -/

/-- C8: a candidate whose canonical key already maps to a fallback-complete
registry entry is skipped on the cheap path: the iteration yields `next` with
the registry unchanged and the attempt counter advanced by one, the outcome
is the same in any world that agrees on the listing (no detail/variant/
download fetch is performed — the chain part of the world is never
consulted), and the skip consumes one unit of the `max_results` budget. -/
theorem c8_duplicate_skip (w w' : World) (maxResults : Nat) (captured : Registry)
    (counter : Nat) (result e : APKResult) (b fb : String)
    (hrows : w'.rows = w.rows)
    (hsearch : searchStep w counter = some result)
    (hbase : extract_base_name result.title = some b)
    (hentry : dictGet captured (pyLower b) = some e)
    (hfb : e.fallback_download_url = some fb)
    (hne : fb ≠ "")
    (hcnt : counter < maxResults) :
    loopBody w captured counter = .next captured ∧
    loopBody w' captured counter = .next captured ∧
    loop w maxResults captured counter = loop w maxResults captured (counter + 1) := by
  have hdup : dupCheck (dictGet captured (pyLower b)) = .ok true := by
    rw [hentry]
    simp only [dupCheck, hfb]
    simp [hne]
  have hproc : processResult w captured result = .next captured := by
    simp only [processResult, hbase, hdup]
  have hproc' : processResult w' captured result = .next captured := by
    simp only [processResult, hbase, hdup]
  have hbody : loopBody w captured counter = .next captured := by
    simp only [loopBody, hsearch, hproc]
  refine ⟨hbody, ?_, loop_step_next w maxResults captured counter captured hcnt hbody⟩
  simp only [loopBody, searchStep_congr w w' counter hrows, hsearch, hproc']

/-- Witness for `c8_duplicate_skip`: the "Tracker 2.0" candidate at position 1
against a registry holding a fallback-complete entry for "tracker", with
`wTrackerNoNet` as the chain-free world sharing the listing. -/
theorem c8_duplicate_skip_witness :
    loopBody wTracker [("tracker", trackerComplete)] 1 =
      .next [("tracker", trackerComplete)] ∧
    loopBody wTrackerNoNet [("tracker", trackerComplete)] 1 =
      .next [("tracker", trackerComplete)] ∧
    loop wTracker 10 [("tracker", trackerComplete)] 1 =
      loop wTracker 10 [("tracker", trackerComplete)] 2 :=
  c8_duplicate_skip wTracker wTrackerNoNet 10 [("tracker", trackerComplete)] 1
    { title := "Tracker 2.0", url := "https://www.apkmirror.com/apk/t2",
      source := "apkmirror", version := some "2.0" }
    trackerComplete "Tracker"
    "https://www.apkmirror.com/wp-content/themes/APKMirror/download.php?id=2"
    rfl (by decide) (by decide) (by decide) rfl (by decide) (by decide)

/-! ## C9: a failed fetch is scoped to its candidate -/

/-- C9: an exception raised by any fetch of the resolution chain (non-2xx via
`raise_for_status`, or a transport error — `tryChain` evaluating to
`Except.error`) is caught inside `get_download_link`, which reports an absent
link; the orchestrator then advances its attempt counter by one and continues
with the next candidate — the registry is untouched and the query loop is not
aborted. -/
theorem c9_fetch_failure_scoped (w : World) (maxResults : Nat) (captured : Registry)
    (counter : Nat) (result : APKResult) (b : String)
    (hchain : tryChain w result = .error ())
    (hsearch : searchStep w counter = some result)
    (hbase : extract_base_name result.title = some b)
    (hdup : dupCheck (dictGet captured (pyLower b)) = .ok false)
    (hcnt : counter < maxResults) :
    get_download_link w result = none ∧
    loopBody w captured counter = .next captured ∧
    loop w maxResults captured counter = loop w maxResults captured (counter + 1) := by
  have hlink : get_download_link w result = none := by
    unfold get_download_link
    split
    · rfl
    · rw [hchain]
  have hproc : processResult w captured result = .next captured := by
    simp only [processResult, hbase, hdup, hlink]
  have hbody : loopBody w captured counter = .next captured := by
    simp only [loopBody, hsearch, hproc]
  exact ⟨hlink, hbody, loop_step_next w maxResults captured counter captured hcnt hbody⟩

/-- Witness for `c9_fetch_failure_scoped`: the single candidate of
`wDetailDown`, whose detail-page fetch raises. -/
theorem c9_fetch_failure_witness :
    get_download_link wDetailDown
      { title := "Tracker 1.2", url := "https://www.apkmirror.com/apk/t1",
        source := "apkmirror", version := some "1.2" } = none ∧
    loopBody wDetailDown [] 0 = .next [] ∧
    loop wDetailDown 10 [] 0 = loop wDetailDown 10 [] 1 :=
  c9_fetch_failure_scoped wDetailDown 10 [] 0
    { title := "Tracker 1.2", url := "https://www.apkmirror.com/apk/t1",
      source := "apkmirror", version := some "1.2" }
    "Tracker" rfl (by decide) (by decide) rfl (by decide)

/-! ## C7: termination and visit bounds -/

/-- Helper: the visit list from counter `counter` with `fuel` remaining
attempts lies in `[counter, rowCount w)`, is strictly increasing, and is no
longer than either the remaining candidates or the remaining budget. -/
theorem traceGo_spec (w : World) :
    ∀ (fuel : Nat) (captured : Registry) (counter : Nat),
      (∀ i ∈ traceGo w captured counter fuel, counter ≤ i ∧ i < rowCount w) ∧
      List.Chain' (· < ·) (traceGo w captured counter fuel) ∧
      (traceGo w captured counter fuel).length ≤ rowCount w - counter ∧
      (traceGo w captured counter fuel).length ≤ fuel := by
  intro fuel
  induction fuel with
  | zero =>
    intro captured counter
    simp [traceGo]
  | succ fuel ih =>
    intro captured counter
    cases hrows : w.rows with
    | error u =>
      have hbody : loopBody w captured counter = .stop none captured := by
        simp only [loopBody, searchStep, hrows]
      simp [traceGo, hrows, hbody]
    | ok rows =>
      have hrc : rowCount w = rows.length := by simp [rowCount, hrows]
      by_cases hlt : counter < rows.length
      · have hv : traceGo w captured counter (fuel + 1) =
            counter :: (match loopBody w captured counter with
                        | .next cap => traceGo w cap (counter + 1) fuel
                        | _ => []) := by
          simp only [traceGo, hrows, if_pos hlt, List.singleton_append]
        cases hbody : loopBody w captured counter with
        | next cap =>
          obtain ⟨ihm, ihc, ihl1, ihl2⟩ := ih cap (counter + 1)
          rw [hv, hbody]
          refine ⟨?_, ?_, ?_, ?_⟩
          · intro i hi
            rcases List.mem_cons.mp hi with rfl | hi
            · exact ⟨Nat.le_refl _, by omega⟩
            · have := ihm i hi
              omega
          · refine List.chain'_cons'.mpr ⟨?_, ihc⟩
            intro y hy
            have := ihm y (List.mem_of_mem_head? hy)
            omega
          · simp only [List.length_cons]
            omega
          · simp only [List.length_cons]
            omega
        | stop r cap =>
          rw [hv, hbody]
          refine ⟨?_, ?_, ?_, ?_⟩
          · intro i hi
            rcases List.mem_cons.mp hi with rfl | hi
            · exact ⟨Nat.le_refl _, by omega⟩
            · simp at hi
          · simp
          · simp only [List.length_cons, List.length_nil]
            omega
          · simp
        | crash e =>
          rw [hv, hbody]
          refine ⟨?_, ?_, ?_, ?_⟩
          · intro i hi
            rcases List.mem_cons.mp hi with rfl | hi
            · exact ⟨Nat.le_refl _, by omega⟩
            · simp at hi
          · simp
          · simp only [List.length_cons, List.length_nil]
            omega
          · simp
      · have hget : rows.get? counter = none :=
          List.get?_eq_none.mpr (by omega)
        have hbody : loopBody w captured counter = .stop none captured := by
          simp only [loopBody, searchStep, hrows, hget]
        simp [traceGo, hrows, hbody, hlt]

/-- C7: for a listing with `rowCount w` candidates and attempt budget
`maxResults`, the per-query loop (a total function by construction) reads the
candidate positions recorded by `loopTrace` in strictly increasing order — so
no position twice — and reads at most `min (rowCount w) maxResults` of them
before returning: the attempt counter grows by one on every continuing
iteration, is bounded by the budget, and a cursor past the listing's last
candidate ends the loop. -/
theorem c7_loop_visits_bounded (w : World) (maxResults : Nat) (captured : Registry) :
    List.Chain' (· < ·) (loopTrace w maxResults captured 0) ∧
    (loopTrace w maxResults captured 0).Nodup ∧
    (loopTrace w maxResults captured 0).length ≤ min (rowCount w) maxResults := by
  obtain ⟨hm, hc, hl1, hl2⟩ := traceGo_spec w maxResults captured 0
  have htrace : loopTrace w maxResults captured 0 = traceGo w captured 0 maxResults := by
    simp [loopTrace]
  rw [htrace]
  refine ⟨hc, ?_, ?_⟩
  · exact (List.chain'_iff_pairwise.mp hc).nodup
  · exact Nat.le_min.mpr ⟨by omega, hl2⟩

/-! ## Character-level facts about the ASCII model -/

theorem toNat_ofNat_lt (n : Nat) (h : n < 55296) : (Char.ofNat n).toNat = n := by
  unfold Char.ofNat
  split
  · rfl
  · next hh => exact absurd (Or.inl h) hh

/-- Evaluation of `pyLowerChar` in terms of codepoints. -/
theorem pyLowerChar_toNat (c : Char) :
    (pyLowerChar c).toNat =
      if 65 ≤ c.toNat ∧ c.toNat ≤ 90 then c.toNat + 32 else c.toNat := by
  unfold pyLowerChar
  by_cases hc : 65 ≤ c.toNat ∧ c.toNat ≤ 90
  · rw [if_pos (by simpa using hc), if_pos hc]
    exact toNat_ofNat_lt _ (by omega)
  · rw [if_neg (by simpa using hc), if_neg hc]

theorem pyIsSpace_pyLowerChar (c : Char) : pyIsSpace (pyLowerChar c) = pyIsSpace c := by
  have h := pyLowerChar_toNat c
  unfold pyIsSpace
  by_cases hc : 65 ≤ c.toNat ∧ c.toNat ≤ 90
  · rw [if_pos hc] at h
    rw [h]
    apply decide_eq_decide.mpr
    omega
  · rw [if_neg hc] at h
    rw [h]

theorem pyIsDigit_pyLowerChar (c : Char) : pyIsDigit (pyLowerChar c) = pyIsDigit c := by
  have h := pyLowerChar_toNat c
  unfold pyIsDigit
  by_cases hc : 65 ≤ c.toNat ∧ c.toNat ≤ 90
  · rw [if_pos hc] at h
    rw [h]
    apply decide_eq_decide.mpr
    omega
  · rw [if_neg hc] at h
    rw [h]

theorem pyIsAlnum_pyLowerChar (c : Char) : pyIsAlnum (pyLowerChar c) = pyIsAlnum c := by
  have h := pyLowerChar_toNat c
  unfold pyIsAlnum
  by_cases hc : 65 ≤ c.toNat ∧ c.toNat ≤ 90
  · rw [if_pos hc] at h
    rw [h]
    apply decide_eq_decide.mpr
    omega
  · rw [if_neg hc] at h
    rw [h]

theorem pyIsNameChar_pyLowerChar (c : Char) :
    pyIsNameChar (pyLowerChar c) = pyIsNameChar c := by
  have h := pyLowerChar_toNat c
  unfold pyIsNameChar
  rw [pyIsAlnum_pyLowerChar]
  by_cases hc : 65 ≤ c.toNat ∧ c.toNat ≤ 90
  · rw [if_pos hc] at h
    rw [h]
    have h45 : decide ((c.toNat + 32) = 46) = decide (c.toNat = 46) :=
      decide_eq_decide.mpr (by omega)
    have h46 : decide ((c.toNat + 32) = 45) = decide (c.toNat = 45) :=
      decide_eq_decide.mpr (by omega)
    rw [h45, h46]
  · rw [if_neg hc] at h
    rw [h]

theorem pyLowerChar_idem (c : Char) : pyLowerChar (pyLowerChar c) = pyLowerChar c := by
  have h := pyLowerChar_toNat c
  by_cases hc : 65 ≤ c.toNat ∧ c.toNat ≤ 90
  · rw [if_pos hc] at h
    rw [pyLowerChar, h, if_neg (by simp; omega)]
  · rw [if_neg hc] at h
    rw [pyLowerChar, h, if_neg (by simpa using hc)]

/-! ## Splitting lemmas -/

theorem splitWs_ne_nil (cs : List Char) : splitWs cs ≠ [] := by
  cases cs with
  | nil => simp [splitWs]
  | cons c cs =>
    unfold splitWs
    split <;> simp

theorem cons_headI_tail {α : Type} [Inhabited α] {l : List α} (h : l ≠ []) :
    l.headI :: l.tail = l := by
  cases l with
  | nil => exact absurd rfl h
  | cons a l => rfl

theorem mem_splitWs_not_space (cs : List Char) :
    ∀ g ∈ splitWs cs, ∀ c ∈ g, pyIsSpace c = false := by
  induction cs with
  | nil =>
    intro g hg c hc
    simp [splitWs] at hg
    subst hg
    simp at hc
  | cons d cs ih =>
    intro g hg c hc
    unfold splitWs at hg
    by_cases hd : pyIsSpace d
    · rw [if_pos hd] at hg
      rcases List.mem_cons.mp hg with rfl | hg
      · simp at hc
      · exact ih g hg c hc
    · rw [if_neg hd] at hg
      rcases List.mem_cons.mp hg with rfl | hg
      · rcases List.mem_cons.mp hc with rfl | hc
        · simpa using hd
        · have hne := splitWs_ne_nil cs
          cases hsw : splitWs cs with
          | nil => exact absurd hsw hne
          | cons g0 gs =>
            rw [hsw] at hc
            exact ih g0 (by rw [hsw]; exact List.mem_cons_self g0 gs) c (by simpa using hc)
      · exact ih g (List.mem_of_mem_tail hg) c hc

theorem splitWs_append_token (tok rest : List Char)
    (htok : ∀ c ∈ tok, pyIsSpace c = false) :
    splitWs (tok ++ rest) = (tok ++ (splitWs rest).headI) :: (splitWs rest).tail := by
  induction tok with
  | nil =>
    simp only [List.nil_append]
    exact (cons_headI_tail (splitWs_ne_nil rest)).symm
  | cons c tok ih =>
    have hc : pyIsSpace c = false := htok c (List.mem_cons_self c tok)
    have ih' := ih (fun d hd => htok d (List.mem_cons_of_mem c hd))
    simp only [List.cons_append, splitWs, hc, Bool.false_eq_true, if_false,
      List.append_eq]
    rw [ih']
    rfl

theorem pySplitChars_cons_ws {c : Char} (cs : List Char) (hc : pyIsSpace c = true) :
    pySplitChars (c :: cs) = pySplitChars cs := by
  simp [pySplitChars, splitWs, hc, List.filter_cons]

theorem headI_tail_splitWs (x : List Char) :
    (splitWs x).headI = x.takeWhile (fun d => !pyIsSpace d) ∧
    ((splitWs x).tail).filter (· ≠ []) =
      pySplitChars (x.dropWhile (fun d => !pyIsSpace d)) := by
  induction x with
  | nil => exact ⟨rfl, rfl⟩
  | cons d x ih =>
    by_cases hd : pyIsSpace d
    · constructor
      · simp [splitWs, hd, List.takeWhile_cons_of_neg]
      · simp only [splitWs, hd, if_true, List.tail_cons]
        have hdrop : (d :: x).dropWhile (fun d => !pyIsSpace d) = d :: x :=
          List.dropWhile_cons_of_neg (by simp [hd])
        rw [hdrop, pySplitChars_cons_ws x hd]
        rfl
    · have hd' : pyIsSpace d = false := by simpa using hd
      constructor
      · simp [splitWs, hd', List.takeWhile_cons_of_pos, ih.1]
      · simp only [splitWs, hd', Bool.false_eq_true, if_false, List.tail_cons]
        have hdrop : (d :: x).dropWhile (fun d => !pyIsSpace d) =
            x.dropWhile (fun d => !pyIsSpace d) :=
          List.dropWhile_cons_of_pos (by simp [hd'])
        rw [hdrop, ih.2]

theorem pySplitChars_cons_nonws {c : Char} (x : List Char) (hc : pyIsSpace c = false) :
    pySplitChars (c :: x) =
      (c :: x.takeWhile (fun d => !pyIsSpace d)) ::
        pySplitChars (x.dropWhile (fun d => !pyIsSpace d)) := by
  unfold pySplitChars
  rw [show splitWs (c :: x) = (c :: (splitWs x).headI) :: (splitWs x).tail by
        simp [splitWs, hc]]
  rw [List.filter_cons]
  simp only [ne_eq, List.cons_ne_nil, not_false_eq_true, decide_True, if_true]
  rw [(headI_tail_splitWs x).1, (headI_tail_splitWs x).2]
  rfl

theorem pySplitChars_all_ws (t : List Char) (ht : ∀ c ∈ t, pyIsSpace c = true) :
    pySplitChars t = [] := by
  induction t with
  | nil => rfl
  | cons c t ih =>
    rw [pySplitChars_cons_ws t (ht c (List.mem_cons_self c t))]
    exact ih (fun d hd => ht d (List.mem_cons_of_mem c hd))

theorem takeWhile_append_all {α : Type} (p : α → Bool) (l t : List α)
    (h : ∀ x ∈ l, p x = true) : (l ++ t).takeWhile p = l ++ t.takeWhile p := by
  induction l with
  | nil => simp
  | cons c l ih =>
    rw [List.cons_append, List.takeWhile_cons_of_pos (h c (List.mem_cons_self c l)),
      ih (fun x hx => h x (List.mem_cons_of_mem c hx)), List.cons_append]

theorem dropWhile_append_all {α : Type} (p : α → Bool) (l t : List α)
    (h : ∀ x ∈ l, p x = true) : (l ++ t).dropWhile p = t.dropWhile p := by
  induction l with
  | nil => simp
  | cons c l ih =>
    rw [List.cons_append, List.dropWhile_cons_of_pos (h c (List.mem_cons_self c l)),
      ih (fun x hx => h x (List.mem_cons_of_mem c hx))]

theorem takeWhile_append_ne {α : Type} (p : α → Bool) (l t : List α)
    (h : l.dropWhile p ≠ []) : (l ++ t).takeWhile p = l.takeWhile p := by
  induction l with
  | nil => exact absurd rfl h
  | cons c l ih =>
    by_cases hc : p c
    · rw [List.cons_append, List.takeWhile_cons_of_pos hc, List.takeWhile_cons_of_pos hc,
        ih (by rwa [List.dropWhile_cons_of_pos hc] at h)]
    · rw [List.cons_append, List.takeWhile_cons_of_neg hc, List.takeWhile_cons_of_neg hc]

theorem dropWhile_append_ne {α : Type} (p : α → Bool) (l t : List α)
    (h : l.dropWhile p ≠ []) : (l ++ t).dropWhile p = l.dropWhile p ++ t := by
  induction l with
  | nil => exact absurd rfl h
  | cons c l ih =>
    by_cases hc : p c
    · rw [List.cons_append, List.dropWhile_cons_of_pos hc, List.dropWhile_cons_of_pos hc,
        ih (by rwa [List.dropWhile_cons_of_pos hc] at h)]
    · rw [List.cons_append, List.dropWhile_cons_of_neg hc, List.dropWhile_cons_of_neg hc,
        List.cons_append]

theorem pySplitChars_append_ws (t : List Char) (ht : ∀ c ∈ t, pyIsSpace c = true) :
    ∀ l : List Char, pySplitChars (l ++ t) = pySplitChars l := by
  have htake : t.takeWhile (fun d => !pyIsSpace d) = [] := by
    cases t with
    | nil => rfl
    | cons c t =>
      exact List.takeWhile_cons_of_neg (by simp [ht c (List.mem_cons_self c t)])
  have hdropt : t.dropWhile (fun d => !pyIsSpace d) = t := by
    cases t with
    | nil => rfl
    | cons c t =>
      exact List.dropWhile_cons_of_neg (by simp [ht c (List.mem_cons_self c t)])
  have H : ∀ n (l : List Char), l.length ≤ n → pySplitChars (l ++ t) = pySplitChars l := by
    intro n
    induction n with
    | zero =>
      intro l hl
      rw [List.length_eq_zero.mp (Nat.le_zero.mp hl), List.nil_append,
        pySplitChars_all_ws t ht]
      rfl
    | succ n ihn =>
      intro l hl
      cases l with
      | nil =>
        rw [List.nil_append, pySplitChars_all_ws t ht]
        rfl
      | cons c l' =>
        by_cases hc : pyIsSpace c
        · rw [List.cons_append, pySplitChars_cons_ws _ hc, pySplitChars_cons_ws _ hc]
          exact ihn l' (by simp only [List.length_cons] at hl; omega)
        · have hc' : pyIsSpace c = false := by simpa using hc
          rw [List.cons_append, pySplitChars_cons_nonws _ hc', pySplitChars_cons_nonws _ hc']
          by_cases hdrop : l'.dropWhile (fun d => !pyIsSpace d) = []
          · have hall : ∀ x ∈ l', (fun d => !pyIsSpace d) x = true :=
              List.dropWhile_eq_nil_iff.mp hdrop
            have htk : l'.takeWhile (fun d => !pyIsSpace d) = l' := by
              have hh := List.takeWhile_append_dropWhile (fun d => !pyIsSpace d) l'
              rw [hdrop, List.append_nil] at hh
              exact hh
            rw [takeWhile_append_all _ _ _ hall, dropWhile_append_all _ _ _ hall,
              htake, hdropt, hdrop, htk, pySplitChars_all_ws t ht, List.append_nil]
            rfl
          · rw [takeWhile_append_ne _ _ _ hdrop, dropWhile_append_ne _ _ _ hdrop]
            congr 1
            apply ihn
            have hle : (l'.dropWhile (fun d => !pyIsSpace d)).length ≤ l'.length :=
              (List.dropWhile_sublist _).length_le
            simp only [List.length_cons] at hl
            omega
  intro l
  exact H l.length l le_rfl

theorem pySplitChars_dropWhile_ws (l : List Char) :
    pySplitChars (l.dropWhile pyIsSpace) = pySplitChars l := by
  induction l with
  | nil => rfl
  | cons c l ih =>
    by_cases hc : pyIsSpace c
    · rw [List.dropWhile_cons_of_pos hc, ih, pySplitChars_cons_ws l hc]
    · rw [List.dropWhile_cons_of_neg hc]

theorem pySplitChars_strip (l : List Char) :
    pySplitChars (((l.dropWhile pyIsSpace).reverse.dropWhile pyIsSpace).reverse) =
      pySplitChars l := by
  set m := l.dropWhile pyIsSpace with hm
  have hdecomp : m = (m.reverse.dropWhile pyIsSpace).reverse ++
      (m.reverse.takeWhile pyIsSpace).reverse := by
    calc m = m.reverse.reverse := (List.reverse_reverse m).symm
    _ = (m.reverse.takeWhile pyIsSpace ++ m.reverse.dropWhile pyIsSpace).reverse := by
          rw [List.takeWhile_append_dropWhile]
    _ = (m.reverse.dropWhile pyIsSpace).reverse ++
          (m.reverse.takeWhile pyIsSpace).reverse := by rw [List.reverse_append]
  have hws : ∀ c ∈ (m.reverse.takeWhile pyIsSpace).reverse, pyIsSpace c = true := by
    intro c hc
    exact List.mem_takeWhile_imp (List.mem_reverse.mp hc)
  calc pySplitChars (m.reverse.dropWhile pyIsSpace).reverse
      = pySplitChars ((m.reverse.dropWhile pyIsSpace).reverse ++
          (m.reverse.takeWhile pyIsSpace).reverse) :=
        (pySplitChars_append_ws _ hws _).symm
    _ = pySplitChars m := by rw [← hdecomp]
    _ = pySplitChars l := by rw [hm, pySplitChars_dropWhile_ws]

/-- Redundancy: `title.strip().split() == title.split()` — the `strip()` the source applies
before `split()` is redundant. -/
theorem pySplit_pyStrip (s : String) : pySplit (pyStrip s) = pySplit s := by
  show (pySplitChars (((s.data.dropWhile pyIsSpace).reverse.dropWhile
      pyIsSpace).reverse)).map String.mk = _
  rw [pySplitChars_strip]
  rfl

/-! ## Joining and lower-casing lemmas -/

theorem mk_data (s : String) : String.mk s.data = s := rfl

theorem pySplitChars_token_space (tok rest : List Char) (hne : tok ≠ [])
    (htok : ∀ c ∈ tok, pyIsSpace c = false) :
    pySplitChars (tok ++ ' ' :: rest) = tok :: pySplitChars rest := by
  unfold pySplitChars
  rw [splitWs_append_token tok (' ' :: rest) htok]
  rw [show splitWs (' ' :: rest) = [] :: splitWs rest by
        rw [splitWs, if_pos (by decide)]]
  simp only [List.headI, List.tail, List.append_nil]
  rw [List.filter_cons, if_pos (by simpa using hne)]

theorem pySplitChars_single (tok : List Char) (hne : tok ≠ [])
    (htok : ∀ c ∈ tok, pyIsSpace c = false) :
    pySplitChars tok = [tok] := by
  unfold pySplitChars
  have h2 : splitWs tok = [tok] := by
    have h := splitWs_append_token tok [] htok
    simp only [List.append_nil, splitWs, List.headI, List.tail] at h
    exact h
  rw [h2, List.filter_cons, if_pos (by simpa using hne)]
  rfl

/-- Splitting a single-space join of non-empty whitespace-free tokens
recovers the tokens. -/
theorem pySplit_joinSpaces (ts : List String)
    (h : ∀ tok ∈ ts, tok.data ≠ [] ∧ ∀ c ∈ tok.data, pyIsSpace c = false) :
    pySplit (joinSpaces ts) = ts := by
  induction ts with
  | nil => rfl
  | cons t ts ih =>
    cases ts with
    | nil =>
      obtain ⟨hne, htok⟩ := h t (List.mem_cons_self t [])
      show (pySplitChars t.data).map String.mk = [t]
      rw [pySplitChars_single t.data hne htok]
      simp [mk_data]
    | cons t' ts' =>
      obtain ⟨hne, htok⟩ := h t (List.mem_cons_self t _)
      have ih' := ih (fun tok htok' => h tok (List.mem_cons_of_mem t htok'))
      show (pySplitChars (joinSpaces (t :: t' :: ts')).data).map String.mk = _
      have hdata : (joinSpaces (t :: t' :: ts')).data =
          t.data ++ ' ' :: (joinSpaces (t' :: ts')).data := by
        show (t ++ " " ++ joinSpaces (t' :: ts')).data = _
        rw [String.data_append, String.data_append, List.append_assoc]
        rfl
      rw [hdata, pySplitChars_token_space t.data _ hne htok]
      simp only [List.map_cons, mk_data]
      show _ :: pySplit (joinSpaces (t' :: ts')) = _
      rw [ih']

theorem splitWs_map_lower (cs : List Char) :
    splitWs (cs.map pyLowerChar) = (splitWs cs).map (List.map pyLowerChar) := by
  induction cs with
  | nil => rfl
  | cons c cs ih =>
    simp only [List.map_cons, splitWs, pyIsSpace_pyLowerChar]
    by_cases hc : pyIsSpace c
    · rw [if_pos hc, if_pos hc, ih]
      rfl
    · rw [if_neg hc, if_neg hc, ih]
      cases hr : splitWs cs with
      | nil => exact absurd hr (splitWs_ne_nil cs)
      | cons g gs => rfl

theorem pySplitChars_map_lower (cs : List Char) :
    pySplitChars (cs.map pyLowerChar) = (pySplitChars cs).map (List.map pyLowerChar) := by
  unfold pySplitChars
  rw [splitWs_map_lower, List.filter_map]
  congr 1
  apply List.filter_congr
  intro g _
  cases g <;> simp

theorem pySplit_pyLower (s : String) : pySplit (pyLower s) = (pySplit s).map pyLower := by
  show (pySplitChars (s.data.map pyLowerChar)).map String.mk = _
  rw [pySplitChars_map_lower]
  unfold pySplit
  rw [List.map_map, List.map_map]
  rfl

theorem mem_pySplit (s : String) (tok : String) (h : tok ∈ pySplit s) :
    tok.data ≠ [] ∧ ∀ c ∈ tok.data, pyIsSpace c = false := by
  unfold pySplit at h
  obtain ⟨g, hg, rfl⟩ := List.mem_map.mp h
  have hgf := List.mem_filter.mp hg
  refine ⟨by simpa using hgf.2, ?_⟩
  intro c hc
  exact mem_splitWs_not_space s.data g hgf.1 c hc

theorem pyLower_append (a b : String) : pyLower (a ++ b) = pyLower a ++ pyLower b := by
  show String.mk ((a ++ b).data.map pyLowerChar) =
    String.mk (a.data.map pyLowerChar) ++ String.mk (b.data.map pyLowerChar)
  rw [String.data_append, List.map_append]
  rfl

theorem pyLower_joinSpaces (ts : List String) :
    pyLower (joinSpaces ts) = joinSpaces (ts.map pyLower) := by
  induction ts with
  | nil => rfl
  | cons t ts ih =>
    cases ts with
    | nil => rfl
    | cons t' ts' =>
      show pyLower (t ++ " " ++ joinSpaces (t' :: ts')) = _
      rw [pyLower_append, pyLower_append, ih]
      rfl

theorem pyLower_idem (s : String) : pyLower (pyLower s) = pyLower s := by
  show String.mk ((s.data.map pyLowerChar).map pyLowerChar) = String.mk (s.data.map pyLowerChar)
  rw [List.map_map]
  exact congrArg String.mk (List.map_congr_left (fun c _ => pyLowerChar_idem c))

/-! ## C10: `_extract_base_name` needs a non-empty token list -/

/-- C10: `_extract_base_name` is total exactly on titles with at least one
whitespace-delimited token — `parts[-1]` on an empty or whitespace-only title
raises `IndexError` — and `search_and_download` applies it to the search
result's title (line 330) with no guard, so a result carrying such a title
crashes the query loop with that `IndexError`. -/
theorem c10_blank_title_unguarded :
    (∀ t : String, pySplit t ≠ [] → (extract_base_name t).isSome = true) ∧
    (∀ t : String, pySplit t = [] → extract_base_name t = none) ∧
    (∀ (w : World) (captured : Registry) (r : APKResult),
      pySplit r.title = [] → processResult w captured r = .crash .indexError) := by
  have hbase : ∀ t : String, pySplit t = [] → extract_base_name t = none := by
    intro t ht
    simp only [extract_base_name, pySplit_pyStrip, ht]
    rfl
  refine ⟨?_, hbase, ?_⟩
  · intro t ht
    simp only [extract_base_name, pySplit_pyStrip]
    cases hl : (pySplit t).getLast? with
    | none => exact absurd (List.getLast?_eq_none_iff.mp hl) ht
    | some last => simp
  · intro w captured r hr
    simp only [processResult, hbase r.title hr]

/-- Witness for `c10_blank_title_unguarded` at concrete inputs. -/
theorem c10_blank_title_witness :
    (extract_base_name "App 1.0").isSome = true ∧
    extract_base_name "   " = none ∧
    processResult wTracker [] blankTitleResult = .crash .indexError :=
  ⟨c10_blank_title_unguarded.1 "App 1.0" (by decide),
   c10_blank_title_unguarded.2.1 "   " (by decide),
   c10_blank_title_unguarded.2.2 wTracker [] blankTitleResult (by decide)⟩

/-! ## The strip condition of `_extract_base_name`, in closed form -/

theorem pyIsDigit_imp_nameChar {c : Char} (h : pyIsDigit c = true) :
    pyIsNameChar c = true := by
  unfold pyIsNameChar pyIsAlnum
  unfold pyIsDigit at h
  simp only [decide_eq_true_eq] at h
  simp only [Bool.or_eq_true, decide_eq_true_eq]
  omega

theorem baseNameTail_eq (cs : List Char) :
    baseNameTail cs = (cs.all pyIsNameChar && cs.any pyIsDigit) := by
  induction cs with
  | nil => rfl
  | cons c cs ih =>
    unfold baseNameTail
    by_cases hc : pyIsDigit c
    · rw [if_pos hc]
      have hname := pyIsDigit_imp_nameChar hc
      simp [List.all_cons, List.any_cons, hname, hc]
    · have hc' : pyIsDigit c = false := by simpa using hc
      rw [if_neg hc, ih]
      simp [List.all_cons, List.any_cons, hc', Bool.and_assoc]

/-- The source's strip regex, in the claim's vocabulary: all characters in
`[A-Za-z0-9.\-]`, first character alphanumeric, and a digit somewhere after
the first character. -/
theorem baseNameTokenMatch_eq_amended (s : String) :
    baseNameTokenMatch s = amendedStripCond s := by
  unfold baseNameTokenMatch amendedStripCond
  cases s.data with
  | nil => rfl
  | cons c cs =>
    show (pyIsAlnum c && baseNameTail cs) =
      (pyIsAlnum c && cs.all pyIsNameChar && cs.any pyIsDigit)
    rw [baseNameTail_eq, Bool.and_assoc]

theorem baseNameTokenMatch_pyLower (s : String) :
    baseNameTokenMatch (pyLower s) = baseNameTokenMatch s := by
  rw [baseNameTokenMatch_eq_amended, baseNameTokenMatch_eq_amended]
  unfold amendedStripCond
  show (match s.data.map pyLowerChar with
        | [] => false
        | c :: cs => pyIsAlnum c && cs.all pyIsNameChar && cs.any pyIsDigit) = _
  cases s.data with
  | nil => rfl
  | cons c cs =>
    simp only [List.map_cons]
    rw [pyIsAlnum_pyLowerChar, List.all_map, List.any_map,
      show pyIsNameChar ∘ pyLowerChar = pyIsNameChar from
        funext fun d => pyIsNameChar_pyLowerChar d,
      show pyIsDigit ∘ pyLowerChar = pyIsDigit from
        funext fun d => pyIsDigit_pyLowerChar d]

/-! ## C5 (amended): canonical keys against the spec-worded extraction -/

/-- C5 amended: for every title with at least one whitespace token, the
canonical key of the source (`_extract_base_name` + `.lower()`) equals the
spec-worded extraction with the corrected strip condition: strip the final
token iff all of its characters are in `[A-Za-z0-9.\-]`, the first is
alphanumeric and a digit occurs after the first character (rather than "iff
the token contains a digit"); remaining tokens re-joined with single spaces,
lower-cased. -/
theorem c5_amended_normalize (t : String) (h : pySplit t ≠ []) :
    normalizeKey t = some (specCanonicalKey amendedStripCond t) := by
  obtain ⟨last, hlast⟩ : ∃ last, (pySplit t).getLast? = some last := by
    cases hl : (pySplit t).getLast? with
    | none => exact absurd (List.getLast?_eq_none_iff.mp hl) h
    | some l => exact ⟨l, rfl⟩
  have hbase : extract_base_name t =
      some (joinSpaces
        (if baseNameTokenMatch last then (pySplit t).dropLast else pySplit t)) := by
    simp only [extract_base_name, pySplit_pyStrip, hlast]
  unfold normalizeKey
  rw [hbase]
  simp only [Option.map_some']
  simp only [specCanonicalKey, hlast]
  rw [← baseNameTokenMatch_eq_amended]
  by_cases hm : baseNameTokenMatch last
  · rw [if_pos hm, pyLower_joinSpaces]
  · rw [if_neg hm, pyLower_joinSpaces]

/-- Witness for `c5_amended_normalize` at "Foo Bar 6.4.2". -/
theorem c5_amended_witness :
    pySplit "Foo Bar 6.4.2" ≠ [] ∧
    normalizeKey "Foo Bar 6.4.2" =
      some (specCanonicalKey amendedStripCond "Foo Bar 6.4.2") :=
  ⟨by decide, c5_amended_normalize "Foo Bar 6.4.2" (by decide)⟩

/-! ## C6 (amended): idempotence under a no-second-strip side condition -/

/-- C6 amended: `normalize(normalize(t)) == normalize(t)` holds for every
title with at least one token, **provided** the token list that survives the
(at most one) trailing-token strip is non-empty and its final token does not
itself match the strip regex.  (The counterexample shows the unrestricted
claim fails when stripping exposes another strippable token.) -/
theorem c6_amended_idempotent (t : String) (last l2 : String)
    (hlast : (pySplit t).getLast? = some last)
    (hl2 : (stripVersionParts (pySplit t)).getLast? = some l2)
    (hnm : baseNameTokenMatch l2 = false) :
    (normalizeKey t).bind normalizeKey = normalizeKey t := by
  have hsub : ∀ tok ∈ stripVersionParts (pySplit t), tok ∈ pySplit t := by
    intro tok htok
    simp only [stripVersionParts, hlast] at htok
    by_cases hm : baseNameTokenMatch last
    · rw [if_pos hm] at htok
      exact List.mem_of_mem_dropLast htok
    · rwa [if_neg hm] at htok
  have htoks : ∀ tok ∈ stripVersionParts (pySplit t),
      tok.data ≠ [] ∧ ∀ c ∈ tok.data, pyIsSpace c = false :=
    fun tok htok => mem_pySplit t tok (hsub tok htok)
  have hbase : extract_base_name t = some (joinSpaces (stripVersionParts (pySplit t))) := by
    simp only [extract_base_name, pySplit_pyStrip, stripVersionParts, hlast]
  have hnk : normalizeKey t = some (pyLower (joinSpaces (stripVersionParts (pySplit t)))) := by
    unfold normalizeKey
    rw [hbase, Option.map_some']
  rw [hnk, Option.some_bind]
  have hsplitk : pySplit (pyLower (joinSpaces (stripVersionParts (pySplit t)))) =
      (stripVersionParts (pySplit t)).map pyLower := by
    rw [pySplit_pyLower, pySplit_joinSpaces _ htoks]
  have hlast2 : ((stripVersionParts (pySplit t)).map pyLower).getLast? =
      some (pyLower l2) := by
    rw [List.getLast?_map, hl2]
    rfl
  have hm2 : baseNameTokenMatch (pyLower l2) = false := by
    rw [baseNameTokenMatch_pyLower]
    exact hnm
  have hbase2 : extract_base_name (pyLower (joinSpaces (stripVersionParts (pySplit t)))) =
      some (joinSpaces ((stripVersionParts (pySplit t)).map pyLower)) := by
    simp only [extract_base_name, pySplit_pyStrip, hsplitk, hlast2, hm2,
      Bool.false_eq_true, if_false]
  unfold normalizeKey
  rw [hbase2, Option.map_some']
  congr 1
  rw [pyLower_joinSpaces, pyLower_joinSpaces, List.map_map]
  congr 1
  exact List.map_congr_left (fun tok _ => pyLower_idem tok)

/-- Witness for `c6_amended_idempotent` at "Foo Bar 6.4.2". -/
theorem c6_amended_witness :
    (pySplit "Foo Bar 6.4.2").getLast? = some "6.4.2" ∧
    (stripVersionParts (pySplit "Foo Bar 6.4.2")).getLast? = some "Bar" ∧
    baseNameTokenMatch "Bar" = false ∧
    (normalizeKey "Foo Bar 6.4.2").bind normalizeKey = normalizeKey "Foo Bar 6.4.2" :=
  ⟨by decide, by decide, by decide,
   c6_amended_idempotent "Foo Bar 6.4.2" "6.4.2" "Bar" (by decide) (by decide) (by decide)⟩

/-! ## The version regex against dotted digit groups -/

theorem dotTail_cons (g : List Char) (gss : List (List Char)) :
    dotTail (g :: gss) = '.' :: (g ++ dotTail gss) := rfl

theorem joinDots_cons (gss : List (List Char)) :
    ∀ g, joinDots (g :: gss) = g ++ dotTail gss := by
  induction gss with
  | nil => intro g; simp [joinDots, dotTail]
  | cons g2 rest ih =>
    intro g
    show g ++ '.' :: joinDots (g2 :: rest) = g ++ dotTail (g2 :: rest)
    rw [ih g2, dotTail_cons]

theorem vmRun_first_cons (c : Char) (cs : List Char) :
    vmRun .firstGroup (c :: cs) =
      if pyIsDigit c then vmRun .firstGroup cs
      else (decide (c = '.') && vmRun .afterDot cs) := rfl

theorem vmRun_later_cons (c : Char) (cs : List Char) :
    vmRun .laterGroup (c :: cs) =
      if pyIsDigit c then vmRun .laterGroup cs
      else (decide (c = '.') && vmRun .afterDot cs) := rfl

theorem vmRun_afterDot_cons (c : Char) (cs : List Char) :
    vmRun .afterDot (c :: cs) = (pyIsDigit c && vmRun .laterGroup cs) := rfl

theorem vmRun_first_digits (d cs : List Char) (hd : ∀ c ∈ d, pyIsDigit c = true) :
    vmRun .firstGroup (d ++ cs) = vmRun .firstGroup cs := by
  induction d with
  | nil => rfl
  | cons c d ih =>
    rw [List.cons_append, vmRun_first_cons,
      if_pos (hd c (List.mem_cons_self c d)),
      ih (fun x hx => hd x (List.mem_cons_of_mem c hx))]

theorem vmRun_later_digits (d cs : List Char) (hd : ∀ c ∈ d, pyIsDigit c = true) :
    vmRun .laterGroup (d ++ cs) = vmRun .laterGroup cs := by
  induction d with
  | nil => rfl
  | cons c d ih =>
    rw [List.cons_append, vmRun_later_cons,
      if_pos (hd c (List.mem_cons_self c d)),
      ih (fun x hx => hd x (List.mem_cons_of_mem c hx))]

theorem vmRun_later_dotTail (gss : List (List Char))
    (hg : ∀ g ∈ gss, g ≠ [] ∧ g.all pyIsDigit = true) :
    vmRun .laterGroup (dotTail gss) = true := by
  induction gss with
  | nil => rfl
  | cons g rest ih =>
    obtain ⟨hne, hdig⟩ := hg g (List.mem_cons_self g rest)
    have ih' := ih (fun g' h' => hg g' (List.mem_cons_of_mem g h'))
    rw [dotTail_cons, vmRun_later_cons, if_neg (by decide)]
    cases g with
    | nil => exact absurd rfl hne
    | cons c g' =>
      rw [List.cons_append, vmRun_afterDot_cons]
      have hall := List.all_eq_true.mp hdig
      rw [hall c (List.mem_cons_self c g'),
        vmRun_later_digits g' _ (fun x hx => hall x (List.mem_cons_of_mem c hx)), ih']
      rfl

theorem vmRun_afterDot_group (g : List Char) (gss : List (List Char))
    (hne : g ≠ []) (hdig : g.all pyIsDigit = true)
    (hgss : ∀ g' ∈ gss, g' ≠ [] ∧ g'.all pyIsDigit = true) :
    vmRun .afterDot (g ++ dotTail gss) = true := by
  cases g with
  | nil => exact absurd rfl hne
  | cons c g' =>
    have hall := List.all_eq_true.mp hdig
    rw [List.cons_append, vmRun_afterDot_cons, hall c (List.mem_cons_self c g'),
      vmRun_later_digits g' _ (fun x hx => hall x (List.mem_cons_of_mem c hx)),
      vmRun_later_dotTail gss hgss]
    rfl

theorem vmRun_first_dotTail (gss : List (List Char)) (hne : gss ≠ [])
    (hgss : ∀ g ∈ gss, g ≠ [] ∧ g.all pyIsDigit = true) :
    vmRun .firstGroup (dotTail gss) = true := by
  cases gss with
  | nil => exact absurd rfl hne
  | cons g rest =>
    rw [dotTail_cons, vmRun_first_cons, if_neg (by decide)]
    rw [vmRun_afterDot_group g rest (hgss g (List.mem_cons_self g rest)).1
      (hgss g (List.mem_cons_self g rest)).2
      (fun g' h' => hgss g' (List.mem_cons_of_mem g h'))]
    rfl

/-- Forward characterization of the three automaton states as digit-group
decompositions. -/
theorem vmRun_chars (cs : List Char) :
    (vmRun .laterGroup cs = true →
      ∃ d gss, (∀ c ∈ d, pyIsDigit c = true) ∧
        (∀ g ∈ gss, g ≠ [] ∧ g.all pyIsDigit = true) ∧ cs = d ++ dotTail gss) ∧
    (vmRun .afterDot cs = true →
      ∃ g gss, g ≠ [] ∧ (∀ c ∈ g, pyIsDigit c = true) ∧
        (∀ g' ∈ gss, g' ≠ [] ∧ g'.all pyIsDigit = true) ∧ cs = g ++ dotTail gss) ∧
    (vmRun .firstGroup cs = true →
      ∃ d gss, (∀ c ∈ d, pyIsDigit c = true) ∧ gss ≠ [] ∧
        (∀ g ∈ gss, g ≠ [] ∧ g.all pyIsDigit = true) ∧ cs = d ++ dotTail gss) := by
  induction cs with
  | nil =>
    refine ⟨fun _ => ⟨[], [], by simp, by simp, rfl⟩, fun h => ?_, fun h => ?_⟩
    · exact absurd h (by decide)
    · exact absurd h (by decide)
  | cons c cs ih =>
    by_cases hc : pyIsDigit c
    · refine ⟨fun h => ?_, fun h => ?_, fun h => ?_⟩
      · rw [vmRun_later_cons, if_pos hc] at h
        obtain ⟨d, gss, hd, hg, rfl⟩ := ih.1 h
        exact ⟨c :: d, gss, by
          intro x hx
          rcases List.mem_cons.mp hx with rfl | hx
          · exact hc
          · exact hd x hx, hg, rfl⟩
      · rw [vmRun_afterDot_cons, hc, Bool.true_and] at h
        obtain ⟨d, gss, hd, hg, rfl⟩ := ih.1 h
        refine ⟨c :: d, gss, by simp, ?_, hg, rfl⟩
        intro x hx
        rcases List.mem_cons.mp hx with rfl | hx
        · exact hc
        · exact hd x hx
      · rw [vmRun_first_cons, if_pos hc] at h
        obtain ⟨d, gss, hd, hne, hg, rfl⟩ := ih.2.2 h
        refine ⟨c :: d, gss, ?_, hne, hg, rfl⟩
        intro x hx
        rcases List.mem_cons.mp hx with rfl | hx
        · exact hc
        · exact hd x hx
    · have hsplit : ∀ b : Bool, (decide (c = '.') && b) = true → c = '.' ∧ b = true := by
        intro b hb
        obtain ⟨h1, h2⟩ := Bool.and_eq_true_iff.mp hb
        exact ⟨of_decide_eq_true h1, h2⟩
      refine ⟨fun h => ?_, fun h => ?_, fun h => ?_⟩
      · rw [vmRun_later_cons, if_neg hc] at h
        obtain ⟨rfl, h2⟩ := hsplit _ h
        obtain ⟨g, gss, hne, hdg, hg, rfl⟩ := ih.2.1 h2
        refine ⟨[], g :: gss, by simp, ?_, by rw [dotTail_cons]; rfl⟩
        intro g' hg'
        rcases List.mem_cons.mp hg' with rfl | hg'
        · exact ⟨hne, List.all_eq_true.mpr hdg⟩
        · exact hg g' hg'
      · rw [vmRun_afterDot_cons] at h
        obtain ⟨h1, _⟩ := Bool.and_eq_true_iff.mp h
        exact absurd h1 (by simp [hc])
      · rw [vmRun_first_cons, if_neg hc] at h
        obtain ⟨rfl, h2⟩ := hsplit _ h
        obtain ⟨g, gss, hne, hdg, hg, rfl⟩ := ih.2.1 h2
        refine ⟨[], g :: gss, by simp, by simp, ?_, by rw [dotTail_cons]; rfl⟩
        intro g' hg'
        rcases List.mem_cons.mp hg' with rfl | hg'
        · exact ⟨hne, List.all_eq_true.mpr hdg⟩
        · exact hg g' hg'

/-- The regex `re.fullmatch(r"\d+(?:\.\d+)+", s)` succeeds exactly on tokens that are
two or more non-empty digit groups joined by single dots. -/
theorem versionTokenMatch_iff (s : String) :
    versionTokenMatch s = true ↔ specDottedVersion 2 s := by
  constructor
  · intro h
    unfold versionTokenMatch at h
    cases hd : s.data with
    | nil => rw [hd] at h; exact absurd h (by decide)
    | cons c cs =>
      rw [hd] at h
      have h' : (pyIsDigit c && vmRun .firstGroup cs) = true := h
      obtain ⟨hc, hrun⟩ := Bool.and_eq_true_iff.mp h'
      obtain ⟨d, gss, hddig, hne, hgss, hcs⟩ := (vmRun_chars cs).2.2 hrun
      refine ⟨(c :: d) :: gss, ?_, ?_, ?_⟩
      · have := List.length_pos.mpr hne
        simp only [List.length_cons]
        omega
      · intro g hg
        rcases List.mem_cons.mp hg with rfl | hg
        · refine ⟨by simp, List.all_eq_true.mpr ?_⟩
          intro x hx
          rcases List.mem_cons.mp hx with rfl | hx
          · exact hc
          · exact hddig x hx
        · exact hgss g hg
      · rw [hd, hcs, joinDots_cons, List.cons_append]
  · rintro ⟨gss, hlen, hgss, hdata⟩
    match gss, hlen with
    | g1 :: g2 :: rest, _ =>
      obtain ⟨hne1, hdig1⟩ := hgss g1 (List.mem_cons_self g1 _)
      cases hg1 : g1 with
      | nil => exact absurd hg1 hne1
      | cons c g1' =>
        have hsdata : s.data = c :: (g1' ++ dotTail (g2 :: rest)) := by
          rw [hdata, joinDots_cons, hg1, List.cons_append]
        have hall := List.all_eq_true.mp (hg1 ▸ hdig1)
        unfold versionTokenMatch
        rw [hsdata]
        show (pyIsDigit c && vmRun .firstGroup (g1' ++ dotTail (g2 :: rest))) = true
        rw [hall c (List.mem_cons_self c g1'),
          vmRun_first_digits g1' _ (fun x hx => hall x (List.mem_cons_of_mem c hx)),
          vmRun_first_dotTail (g2 :: rest) (by simp)
            (fun g h => hgss g (List.mem_cons_of_mem g1 h))]
        rfl

/-! ## C4 (amended): version extraction -/

/-- C4 amended: for every title with a final whitespace token, the extracted
version equals that token iff the token consists of **two or more** digit
groups separated by single dots (at least one dot; a bare digit run such as
"12" is not a version). -/
theorem c4_amended_version (title last : String)
    (hlast : (pySplit title).getLast? = some last) :
    (extract_version title = some last ↔ specDottedVersion 2 last) := by
  have hev : extract_version title =
      if versionTokenMatch last then some last else none := by
    simp only [extract_version, pySplit_pyStrip, hlast]
  rw [hev]
  by_cases hm : versionTokenMatch last
  · rw [if_pos hm]
    exact iff_of_true rfl ((versionTokenMatch_iff last).mp hm)
  · rw [if_neg hm]
    refine iff_of_false (by simp) ?_
    intro hs
    exact hm ((versionTokenMatch_iff last).mpr hs)

/-- Witness for `c4_amended_version` at "App 6.4.2". -/
theorem c4_amended_witness :
    (pySplit "App 6.4.2").getLast? = some "6.4.2" ∧
    (extract_version "App 6.4.2" = some "6.4.2" ↔ specDottedVersion 2 "6.4.2") :=
  ⟨by decide, c4_amended_version "App 6.4.2" "6.4.2" (by decide)⟩

end MindTheApp
